import Mathlib

/-!
Verification of the ChessCam chess-robot scan/commit pipeline.

Shallow embedding of the state-fusion, move-inference and robot-sequencing
code. JavaScript numbers are modelled as rationals, JS string-keyed objects
as association lists, and JS Sets as lists with idempotent insertion. The
chess.js board is external to the repository and is modelled as an abstract
engine parameter.
-/

/-- Application mode, from src/types.tsx (`type Mode`). -/
inductive Mode where
  | record
  | upload
  | analyze
  | play
deriving DecidableEq, Repr

/-- MovesData, from src/types.tsx: one candidate move with its SAN
notation strings, the squares expected to become empty, the squares
expected to hold target classes, and the parallel class list. -/
structure MovesData where
  sans : List String
  «from» : List Nat
  «to» : List Nat
  targets : List Nat
deriving DecidableEq, Repr

/-- MovesPair, from src/types.tsx: a first move with an optional response
move and an optional combined two-move descriptor. -/
structure MovesPair where
  move1 : MovesData
  move2 : Option MovesData
  moves : Option MovesData
deriving DecidableEq, Repr

/-- The belief state `zeros(64, 12)` (src math.ts `zeros`): all entries 0.
The 64x12 grid is represented as a function on square and class indices. -/
def zeros64x12 : Nat → Nat → ℚ := fun _ _ => 0

/-- The row `state[sq]` of the belief grid: the 12 class confidences of one
square, as read by `Math.max(...state[square])` in `calculateScore`. -/
def rowOf (state : Nat → Nat → ℚ) (sq : Nat) : List ℚ :=
  (List.range 12).map (state sq)

/-- JavaScript `Math.max(...row)` for the nonempty rows of the belief grid
(every row has exactly 12 entries; the empty case is unreachable). -/
def jsMaxRow : List ℚ → ℚ
  | [] => 0
  | x :: xs => xs.foldl max x

/-- calculateScore (detection part_001 lines 93-104): accumulates
`1 - Math.max(...state[square]) - from_thr` over the from-squares, then
`state[move.to[i]][move.targets[i]] - to_thr` over the to-indices. -/
def calculateScore (state : Nat → Nat → ℚ) (move : MovesData)
    (from_thr to_thr : ℚ) : ℚ :=
  let score1 := move.«from».foldl
    (fun acc square => acc + (1 - jsMaxRow (rowOf state square) - from_thr)) 0
  (List.range move.«to».length).foldl
    (fun acc i => acc + (state (move.«to».getD i 0) (move.targets.getD i 0) - to_thr))
    score1

/-- calculateScore with its default thresholds `from_thr=0.6, to_thr=0.6`,
exactly as invoked by processState. -/
def calculateScoreDefault (state : Nat → Nat → ℚ) (move : MovesData) : ℚ :=
  calculateScore state move 0.6 0.6

/-- updateState (detection part_001 lines 223-230): for every square i < 64
and class j < 12, `state[i][j] = decay * state[i][j] + (1-decay) * update[i][j]`;
entries outside the 64x12 grid do not exist in the source arrays and are
left unchanged by the functional embedding. -/
def updateState (state update : Nat → Nat → ℚ) (decay : ℚ) : Nat → Nat → ℚ :=
  fun i j =>
    if i < 64 ∧ j < 12 then decay * state i j + (1 - decay) * update i j
    else state i j

lemma foldl_add_eq_sum {α : Type} (f : α → ℚ) :
    ∀ (l : List α) (a : ℚ),
      l.foldl (fun acc x => acc + f x) a = a + (l.map f).sum := by
  intro l
  induction l with
  | nil => intro a; simp
  | cons x xs ih =>
    intro a
    simp only [List.foldl_cons, List.map_cons, List.sum_cons]
    rw [ih]
    ring

/-- C4: the candidate move score equals the sum over the from-squares of
(1 - max over the 12 classes of state[sq][c] - from_threshold) plus the sum
over i of (state[to[i]][targets[i]] - to_threshold); the default thresholds
are from_threshold = to_threshold = 0.6 = 3/5. The function is a total Lean
definition (pure, no failure modes). -/
theorem calculateScore_formula :
    ∀ (state : Nat → Nat → ℚ) (move : MovesData) (fthr tthr : ℚ),
      calculateScore state move fthr tthr =
        (move.«from».map (fun sq => 1 - jsMaxRow (rowOf state sq) - fthr)).sum
          + ((List.range move.«to».length).map
              (fun i => state (move.«to».getD i 0) (move.targets.getD i 0) - tthr)).sum
      ∧ calculateScoreDefault state move = calculateScore state move (3/5) (3/5) := by
  intro state move fthr tthr
  constructor
  · unfold calculateScore
    rw [foldl_add_eq_sum, foldl_add_eq_sum]
    ring
  · unfold calculateScoreDefault
    norm_num

/-- C5: the accumulator update formula holds on every cell of the 64x12
grid, and the end-to-end scenario: from the all-zero state, a detection
update of 0.9 at square 12 in some class c with decay 0.5 yields 0.45 after
one frame and 0.675 after a second identical frame. -/
theorem updateState_formula_and_scenario :
    (∀ (state update : Nat → Nat → ℚ) (decay : ℚ) (i j : Nat),
        i < 64 → j < 12 →
        updateState state update decay i j
          = decay * state i j + (1 - decay) * update i j)
    ∧ (∀ c : Nat, c < 12 →
        updateState zeros64x12
            (fun i j => if i = 12 ∧ j = c then (0.9 : ℚ) else 0) (1/2) 12 c
          = 0.45
        ∧ updateState
            (updateState zeros64x12
              (fun i j => if i = 12 ∧ j = c then (0.9 : ℚ) else 0) (1/2))
            (fun i j => if i = 12 ∧ j = c then (0.9 : ℚ) else 0) (1/2) 12 c
          = 0.675) := by
  constructor
  · intro state update decay i j hi hj
    unfold updateState
    rw [if_pos ⟨hi, hj⟩]
  · intro c hc
    have h64 : (12 : Nat) < 64 := by norm_num
    have step : ∀ st : Nat → Nat → ℚ,
        updateState st (fun i j => if i = 12 ∧ j = c then (0.9 : ℚ) else 0)
            (1/2) 12 c
          = (1/2) * st 12 c + (1/2) * (9/10) := by
      intro st
      show (if 12 < 64 ∧ c < 12 then
          (1/2) * st 12 c
            + (1 - 1/2) * (if 12 = 12 ∧ c = c then (0.9 : ℚ) else 0)
        else st 12 c) = (1/2) * st 12 c + (1/2) * (9/10)
      rw [if_pos ⟨h64, hc⟩, if_pos ⟨rfl, rfl⟩]
      norm_num
    constructor
    · rw [step]
      unfold zeros64x12
      norm_num
    · rw [step, step]
      unfold zeros64x12
      norm_num

/-- Witness for C5 at the concrete class index c = 0. -/
theorem updateState_formula_and_scenario_witness :
    updateState zeros64x12 zeros64x12 (1/2) 3 4
        = (1/2) * zeros64x12 3 4 + (1 - 1/2) * zeros64x12 3 4
    ∧ (updateState zeros64x12
          (fun i j => if i = 12 ∧ j = 0 then (0.9 : ℚ) else 0) (1/2) 12 0
        = 0.45
      ∧ updateState
          (updateState zeros64x12
            (fun i j => if i = 12 ∧ j = 0 then (0.9 : ℚ) else 0) (1/2))
          (fun i j => if i = 12 ∧ j = 0 then (0.9 : ℚ) else 0) (1/2) 12 0
        = 0.675) :=
  ⟨updateState_formula_and_scenario.1 zeros64x12 zeros64x12 (1/2) 3 4
      (by norm_num) (by norm_num),
    updateState_formula_and_scenario.2 0 (by norm_num)⟩

/-- C10: for decay in [0,1], updateState maps a state and an update whose
entries all lie in [0,1] to a state whose entries all lie in [0,1] (so no
entry ever becomes negative), and an all-zero detection update can only
shrink entries toward 0. -/
theorem updateState_preserves_unit_interval :
    ∀ (state update : Nat → Nat → ℚ) (decay : ℚ),
      0 ≤ decay → decay ≤ 1 →
      (∀ i j, 0 ≤ state i j ∧ state i j ≤ 1) →
      (∀ i j, 0 ≤ update i j ∧ update i j ≤ 1) →
      (∀ i j, 0 ≤ updateState state update decay i j
        ∧ updateState state update decay i j ≤ 1)
      ∧ (∀ i j, updateState state (fun _ _ => 0) decay i j ≤ state i j) := by
  intro state update decay hd0 hd1 hs hu
  constructor
  · intro i j
    unfold updateState
    by_cases h : i < 64 ∧ j < 12
    · rw [if_pos h]
      obtain ⟨hs0, hs1⟩ := hs i j
      obtain ⟨hu0, hu1⟩ := hu i j
      constructor
      · have h1 : 0 ≤ decay * state i j := mul_nonneg hd0 hs0
        have h2 : 0 ≤ (1 - decay) * update i j :=
          mul_nonneg (by linarith) hu0
        linarith
      · nlinarith
    · rw [if_neg h]
      exact hs i j
  · intro i j
    unfold updateState
    by_cases h : i < 64 ∧ j < 12
    · rw [if_pos h]
      obtain ⟨hs0, _⟩ := hs i j
      show decay * state i j + (1 - decay) * (0 : ℚ) ≤ state i j
      nlinarith
    · rw [if_neg h]

/-- Witness for C10 at the all-zero state and update with decay 1/2. -/
theorem updateState_preserves_unit_interval_witness :
    0 ≤ updateState zeros64x12 zeros64x12 (1/2) 5 7
    ∧ updateState zeros64x12 zeros64x12 (1/2) 5 7 ≤ 1 :=
  (updateState_preserves_unit_interval zeros64x12 zeros64x12 (1/2)
    (by norm_num) (by norm_num)
    (fun _ _ => ⟨le_rfl, by norm_num [zeros64x12]⟩)
    (fun _ _ => ⟨le_rfl, by norm_num [zeros64x12]⟩)).1 5 7

/-- JavaScript Set insertion `seen.add(x)`: idempotent append, modelled on a
list of the set's elements (insertion order preserved). -/
def setAdd (s : List String) (x : String) : List String :=
  if s.contains x then s else s ++ [x]

/-- Property names found on a JavaScript `Set` instance and its prototype
chain (`Set.prototype` and `Object.prototype`). The JS `in` operator applied
to a Set tests exactly these names, never the set's elements. -/
def jsSetPrototypeKeys : List String :=
  ["add", "clear", "delete", "difference", "entries", "forEach", "has",
   "intersection", "isDisjointFrom", "isSubsetOf", "isSupersetOf", "keys",
   "size", "symmetricDifference", "union", "values", "constructor",
   "hasOwnProperty", "isPrototypeOf", "propertyIsEnumerable",
   "toLocaleString", "toString", "valueOf"]

/-- The JavaScript expression `key in set` for a `Set` object (as written in
processState, detection part_001 line 118): `in` checks property names of
the object and its prototype chain, so the result is independent of the
set's elements and is false for every chess move notation. -/
def jsSetIn (key : String) (_elems : List String) : Bool :=
  jsSetPrototypeKeys.contains key

/-- Result record of processState (detection part_001 lines 106-149).
JavaScript `Number.NEGATIVE_INFINITY` initial best scores are modelled as
the bottom element of `WithBot ℚ`; the in-place mutated `possibleMoves` set
is carried in the result. -/
structure ProcessResult where
  bestScore1 : WithBot ℚ
  bestScore2 : WithBot ℚ
  bestJointScore : WithBot ℚ
  bestMove : Option MovesData
  bestMoves : Option MovesData
  possibleMoves : List String
  seen : List String
deriving Repr

/-- Body of the `movesPairs.forEach` callback in processState: first the
step-1 block guarded by `!(movePair.move1.sans[0] in seen)`, then the pair
block guarded by non-null move2/moves and `possibleMoves.has(...)`. -/
def processStateStep (state : Nat → Nat → ℚ) (acc : ProcessResult)
    (movePair : MovesPair) : ProcessResult :=
  let san := movePair.move1.sans.headD ""
  let acc :=
    if jsSetIn san acc.seen then acc
    else
      let seen1 := setAdd acc.seen san
      let score := calculateScoreDefault state movePair.move1
      let pm :=
        if (0 : ℚ) < score then setAdd acc.possibleMoves san
        else acc.possibleMoves
      if acc.bestScore1 < (score : WithBot ℚ) then
        { acc with seen := seen1, possibleMoves := pm,
                   bestMove := some movePair.move1,
                   bestScore1 := (score : WithBot ℚ) }
      else { acc with seen := seen1, possibleMoves := pm }
  match movePair.move2, movePair.moves with
  | some m2, some ms =>
    if acc.possibleMoves.contains san then
      let score2 := calculateScoreDefault state m2
      if score2 < 0 then acc
      else
        let acc :=
          if acc.bestScore2 < (score2 : WithBot ℚ) then
            { acc with bestScore2 := (score2 : WithBot ℚ) }
          else acc
        let jointScore := calculateScoreDefault state ms
        if acc.bestJointScore < (jointScore : WithBot ℚ) then
          { acc with bestJointScore := (jointScore : WithBot ℚ),
                     bestMoves := some ms }
        else acc
    else acc
  | _, _ => acc

/-- processState (detection part_001 lines 106-149): folds the callback over
the move pairs, starting from negative-infinity best scores, null best
moves, a fresh `seen` set and the caller's persistent `possibleMoves` set. -/
def processState (state : Nat → Nat → ℚ) (movesPairs : List MovesPair)
    (possibleMoves : List String) : ProcessResult :=
  movesPairs.foldl (processStateStep state)
    ⟨⊥, ⊥, ⊥, none, none, possibleMoves, []⟩

/-- Instrumentation of the step-1 guard of processState: the sequence of
move1 notations for which `calculateScore` is invoked, produced by the very
same guard `!(movePair.move1.sans[0] in seen)` followed by `seen.add`. A
notation appears once per pair whose guard passes. -/
def processStateScoredSans (movesPairs : List MovesPair) : List String :=
  (movesPairs.foldl
    (fun (acc : List String × List String) movePair =>
      let san := movePair.move1.sans.headD ""
      if jsSetIn san acc.1 then acc
      else (setAdd acc.1 san, acc.2 ++ [san]))
    ([], [])).2

/-- Fixture for C8: a pawn-push candidate whose notation is "e4". -/
def mvE4 : MovesData := ⟨["e4"], [12], [28], [0]⟩

/-- Fixture pair for C8 with move1 = "e4" and no response move. -/
def pairE4 : MovesPair := ⟨mvE4, none, none⟩

/-- C8: the deduplication never happens. The membership test
`movePair.move1.sans[0] in seen` uses the JS `in` operator on a `Set`,
which inspects property names rather than elements, so it is false even for
a notation that was just added to `seen`; with two pairs sharing the
notation "e4" the first-move score is computed twice, not once as the spec
and the evident intent of the `seen` set require. -/
theorem duplicate_move1_rescored :
    jsSetIn "e4" (setAdd [] "e4") = false
    ∧ processStateScoredSans [pairE4, pairE4] = ["e4", "e4"]
    ∧ (∀ seen : List String, jsSetIn "e4" seen = false) := by
  refine ⟨by decide, by decide, ?_⟩
  intro seen
  rfl

/-- Abstract chess.js board interface, external to the repository. `move`
is `board.move(san)` (the board after applying a SAN notation) and
`sanToLan` is the helper of detection part_001 lines 232-238, which plays
the SAN, reads the long-algebraic form from the history and undoes the
move, leaving the board unchanged. -/
structure ChessEngine (B : Type) where
  move : B → String → B
  sanToLan : B → String → String

/-- Mutable loop state consumed by the commit stage of one scan cycle:
the chess.js board (`boardRef.current`), the persistent `possibleMoves`
set, and the `greedyMoveToTime` object mapping a notation to the time it
was first seen as best move (insertion-ordered association list). -/
structure CommitState (B : Type) where
  board : B
  possibleMoves : List String
  gmt : List (String × ℚ)

/-- Confirmed-pair commit block (detection part_001 lines 563-572): outside
"play" mode, when `bestMoves` is non-null and `bestScore2 > 0` and
`bestJointScore > 0` and the joint move's primary notation is in
`possibleMoves`, the joint move is applied to the board and both
`possibleMoves` and the greedy timer map are cleared. Returns the updated
state and the `hasMove` flag. -/
def confirmStep {B : Type} (eng : ChessEngine B) (mode : Mode)
    (bestScore2 bestJointScore : WithBot ℚ) (bestMoves : Option MovesData)
    (st : CommitState B) : CommitState B × Bool :=
  match bestMoves with
  | none => (st, false)
  | some mv =>
    if mode ≠ Mode.play then
      let mvSan := mv.sans.headD ""
      let hasMove := decide ((0 : WithBot ℚ) < bestScore2)
        && decide ((0 : WithBot ℚ) < bestJointScore)
        && st.possibleMoves.contains mvSan
      if hasMove then (⟨eng.move st.board mvSan, [], []⟩, true)
      else (st, false)
    else (st, false)

/-- Greedy commit block (detection part_001 lines 574-588): when no
confirmed commit fired and `bestMove` is non-null with `bestScore1 > 0`,
the notation's first-seen time is recorded if absent; the move commits when
more than 1000ms have elapsed since the recorded time and its
long-algebraic form differs from `lastMoveRef.current`; on commit the timer
map is replaced by an object with the single literal key "greedyMove"
holding the old timestamp. Returns the updated state and `hasGreedyMove`. -/
def greedyStep {B : Type} (eng : ChessEngine B) (endTime : ℚ)
    (lastMove : String) (bestScore1 : WithBot ℚ) (bestMove : Option MovesData)
    (hasMove : Bool) (st : CommitState B) : CommitState B × Bool :=
  match bestMove with
  | none => (st, false)
  | some mv =>
    if !hasMove && decide ((0 : WithBot ℚ) < bestScore1) then
      let mvSan := mv.sans.headD ""
      let gmt1 :=
        if (st.gmt.lookup mvSan).isSome then st.gmt
        else st.gmt ++ [(mvSan, endTime)]
      let t := (gmt1.lookup mvSan).getD 0
      let secondElapsed := decide ((1000 : ℚ) < endTime - t)
      let newMove := decide (eng.sanToLan st.board mvSan ≠ lastMove)
      let hasGreedyMove := secondElapsed && newMove
      if hasGreedyMove then
        (⟨eng.move st.board mvSan, st.possibleMoves, [("greedyMove", t)]⟩, true)
      else (⟨st.board, st.possibleMoves, gmt1⟩, false)
    else (st, false)

/-- Outcome of the commit stage of one scan cycle: the updated loop state,
the two commit flags, and the greedy flag of the dispatched game update
(`none` when nothing was dispatched). -/
structure CommitOutcome (B : Type) where
  state : CommitState B
  hasMove : Bool
  hasGreedyMove : Bool
  dispatch : Option Bool

/-- Commit stage of one scan cycle (detection part_001 lines 563-596):
confirmed-pair block, then greedy block, then — if either committed — a
game update is dispatched whose greedy mark is `hasGreedyMove`, forced to
false in "play" mode ("No takebacks in play mode"). -/
def commitStage {B : Type} (eng : ChessEngine B) (mode : Mode)
    (endTime : ℚ) (lastMove : String)
    (bestScore1 bestScore2 bestJointScore : WithBot ℚ)
    (bestMove bestMoves : Option MovesData)
    (st : CommitState B) : CommitOutcome B :=
  let c := confirmStep eng mode bestScore2 bestJointScore bestMoves st
  let g := greedyStep eng endTime lastMove bestScore1 bestMove c.2 c.1
  let dispatch :=
    if c.2 || g.2 then
      some (if mode = Mode.play then false else g.2)
    else none
  ⟨g.1, c.2, g.2, dispatch⟩

/-- Per-cycle inputs of the commit stage: the five processState outputs,
the mode, the cycle's `endTime` timestamp and the external
`lastMoveRef.current` value. -/
structure CycleInput where
  bestScore1 : WithBot ℚ
  bestScore2 : WithBot ℚ
  bestJointScore : WithBot ℚ
  bestMove : Option MovesData
  bestMoves : Option MovesData
  mode : Mode
  endTime : ℚ
  lastMove : String

/-- Commit stage of one scan cycle driven by a CycleInput record. -/
def cycleStep {B : Type} (eng : ChessEngine B) (st : CommitState B)
    (c : CycleInput) : CommitOutcome B :=
  commitStage eng c.mode c.endTime c.lastMove c.bestScore1 c.bestScore2
    c.bestJointScore c.bestMove c.bestMoves st

/-- Runs the commit stage over a list of scan cycles, threading the loop
state. -/
def runCycles {B : Type} (eng : ChessEngine B) (st : CommitState B) :
    List CycleInput → CommitState B
  | [] => st
  | c :: cs => runCycles eng (cycleStep eng st c).state cs

/-- The notation m was observed as the cycle's best greedy candidate:
`bestMove` is non-null and its primary notation is m. -/
def observedAs (c : CycleInput) (m : String) : Prop :=
  ∃ mv, c.bestMove = some mv ∧ mv.sans.headD "" = m

lemma confirmStep_false_of_play {B : Type} (eng : ChessEngine B)
    (bs2 bj : WithBot ℚ) (bms : Option MovesData) (st : CommitState B) :
    confirmStep eng Mode.play bs2 bj bms st = (st, false) := by
  cases bms with
  | none => rfl
  | some mv => simp [confirmStep]

lemma greedyStep_fst_of_hasMove {B : Type} (eng : ChessEngine B)
    (endTime : ℚ) (lastMove : String) (bs1 : WithBot ℚ)
    (bm : Option MovesData) (st : CommitState B) :
    greedyStep eng endTime lastMove bs1 bm true st = (st, false) := by
  cases bm with
  | none => rfl
  | some mv => simp [greedyStep]

lemma confirmStep_snd_iff {B : Type} (eng : ChessEngine B) (mode : Mode)
    (bs2 bj : WithBot ℚ) (bms : Option MovesData) (st : CommitState B) :
    (confirmStep eng mode bs2 bj bms st).2 = true
      ↔ ∃ mv, bms = some mv ∧ mode ≠ Mode.play ∧ (0 : WithBot ℚ) < bs2
          ∧ (0 : WithBot ℚ) < bj
          ∧ st.possibleMoves.contains (mv.sans.headD "") = true := by
  cases bms with
  | none => simp [confirmStep]
  | some mv =>
    by_cases hm : mode = Mode.play
    · subst hm
      simp [confirmStep]
    · constructor
      · intro h
        simp only [confirmStep, if_pos hm] at h
        by_cases hcond : (decide ((0 : WithBot ℚ) < bs2)
            && decide ((0 : WithBot ℚ) < bj)
            && st.possibleMoves.contains (mv.sans.headD "")) = true
        · simp only [Bool.and_eq_true, decide_eq_true_eq] at hcond
          exact ⟨mv, rfl, hm, hcond.1.1, hcond.1.2, hcond.2⟩
        · rw [if_neg (by simpa using hcond)] at h
          simp at h
      · rintro ⟨mv', hmv', _, h2, hj, hpm⟩
        obtain rfl : mv = mv' := by injection hmv'
        simp only [confirmStep, if_pos hm]
        have hcond : (decide ((0 : WithBot ℚ) < bs2)
            && decide ((0 : WithBot ℚ) < bj)
            && st.possibleMoves.contains (mv.sans.headD "")) = true := by
          simp only [Bool.and_eq_true, decide_eq_true_eq]
          exact ⟨⟨h2, hj⟩, hpm⟩
        rw [if_pos hcond]

lemma confirmStep_fst_of_true {B : Type} (eng : ChessEngine B) (mode : Mode)
    (bs2 bj : WithBot ℚ) (mv : MovesData) (st : CommitState B)
    (h : (confirmStep eng mode bs2 bj (some mv) st).2 = true) :
    (confirmStep eng mode bs2 bj (some mv) st).1
      = ⟨eng.move st.board (mv.sans.headD ""), [], []⟩ := by
  by_cases hm : mode = Mode.play
  · subst hm
    rw [confirmStep_false_of_play] at h
    simp at h
  · simp only [confirmStep, if_pos hm] at h ⊢
    by_cases hcond : (decide ((0 : WithBot ℚ) < bs2)
        && decide ((0 : WithBot ℚ) < bj)
        && st.possibleMoves.contains (mv.sans.headD "")) = true
    · rw [if_pos hcond]
    · rw [if_neg hcond] at h
      simp at h

/-- C2 (confirmed): in the commit stage of a scan cycle, the confirmed-pair
commit fires exactly when the mode is not "play", bestMoves is non-null,
bestScore2 > 0, bestJointScore > 0 and the joint move's primary notation is
in possibleMoves; when it fires the joint move is applied to the board and
both possibleMoves and the greedy timer map are cleared. When any condition
fails, hasMove is false and no confirmed-pair commit happens in the cycle. -/
theorem confirmed_pair_commit_iff :
    ∀ {B : Type} (eng : ChessEngine B) (mode : Mode) (endTime : ℚ)
      (lastMove : String) (bs1 bs2 bj : WithBot ℚ)
      (bm bms : Option MovesData) (st : CommitState B),
      ((commitStage eng mode endTime lastMove bs1 bs2 bj bm bms st).hasMove
          = true
        ↔ ∃ mv, bms = some mv ∧ mode ≠ Mode.play ∧ (0 : WithBot ℚ) < bs2
            ∧ (0 : WithBot ℚ) < bj
            ∧ st.possibleMoves.contains (mv.sans.headD "") = true)
      ∧ ((commitStage eng mode endTime lastMove bs1 bs2 bj bm bms st).hasMove
          = true →
        ∃ mv, bms = some mv
          ∧ (commitStage eng mode endTime lastMove bs1 bs2 bj bm bms st).state
              = ⟨eng.move st.board (mv.sans.headD ""), [], []⟩) := by
  intro B eng mode endTime lastMove bs1 bs2 bj bm bms st
  constructor
  · show (confirmStep eng mode bs2 bj bms st).2 = true ↔ _
    exact confirmStep_snd_iff eng mode bs2 bj bms st
  · intro h
    have h2 : (confirmStep eng mode bs2 bj bms st).2 = true := h
    obtain ⟨mv, hmv, -, -, -, -⟩ := (confirmStep_snd_iff eng mode bs2 bj bms st).mp h2
    refine ⟨mv, hmv, ?_⟩
    show (greedyStep eng endTime lastMove bs1 bm
        (confirmStep eng mode bs2 bj bms st).2
        (confirmStep eng mode bs2 bj bms st).1).1 = _
    rw [h2, greedyStep_fst_of_hasMove]
    subst hmv
    exact confirmStep_fst_of_true eng mode bs2 bj mv st h2

/-- Concrete chess engine used for closed evaluations: the board is the
list of SANs played so far, and the long-algebraic resolution is the
identity on notations. -/
def engL : ChessEngine (List String) where
  move := fun b m => b ++ [m]
  sanToLan := fun _ m => m

/-- Concrete commit-stage state for the C2 witness: empty board and timer
map, possibleMoves holding "e4". -/
def stC2 : CommitState (List String) := ⟨[], ["e4"], []⟩

/-- Witness for C2: a confirmed-pair commit at a fixture satisfying all the
conditions. -/
theorem confirmed_pair_commit_iff_witness :
    (commitStage engL Mode.record 0 "" ⊥ ((1 : ℚ) : WithBot ℚ)
      ((1 : ℚ) : WithBot ℚ) none (some mvE4) stC2).hasMove = true :=
  (confirmed_pair_commit_iff engL Mode.record 0 "" ⊥ ((1 : ℚ) : WithBot ℚ)
      ((1 : ℚ) : WithBot ℚ) none (some mvE4) stC2).1.mpr
    ⟨mvE4, rfl, by decide, by decide, by decide, by decide⟩

/-- Play-mode cycle fixture for C1: "e4" is the best greedy candidate with
positive score; no move pair is available. -/
def cPlay (t : ℚ) : CycleInput :=
  ⟨((1 : ℚ) : WithBot ℚ), ⊥, ⊥, some mvE4, none, Mode.play, t, ""⟩

/-- Loop state at tracking restart: empty board history, no possible moves,
empty greedy timer map. -/
def st0L : CommitState (List String) := ⟨[], [], []⟩

/-- Outcome of the second play-mode scan cycle of the C1 counterexample
run: cycle at time 0 records "e4" in the greedy timer map, cycle at time
2000 revisits it. -/
def playRunOutcome : CommitOutcome (List String) :=
  cycleStep engL (cycleStep engL st0L (cPlay 0)).state (cPlay 2000)

/-- Counterexample to C1: in "play" mode the greedy single-move path is not
suppressed. Two scan cycles (times 0 and 2000) with "e4" as a
positive-score best move: the second cycle commits "e4" to the board via
the greedy path (hasGreedyMove is true and the board changes), while the
dispatched update is marked non-greedy. -/
theorem play_mode_greedy_commit_fires :
    playRunOutcome.hasGreedyMove = true
    ∧ playRunOutcome.state.board = ["e4"]
    ∧ playRunOutcome.dispatch = some false := by
  have h1 : (cycleStep engL st0L (cPlay 0)).state
      = ⟨[], [], [("e4", 0)]⟩ := by
    norm_num [cycleStep, commitStage, confirmStep, greedyStep, engL, st0L,
      cPlay, mvE4, List.lookup]
  have hne : ¬(("e4" : String) = "") := by decide
  have h2 : cycleStep engL ⟨[], [], [("e4", 0)]⟩ (cPlay 2000)
      = ⟨⟨["e4"], [], [("greedyMove", 0)]⟩, false, true, some false⟩ := by
    norm_num [cycleStep, commitStage, confirmStep, greedyStep, engL,
      cPlay, mvE4, List.lookup, if_neg hne]
  refine ⟨?_, ?_, ?_⟩ <;> simp [playRunOutcome, h1, h2]

/-- C1 as amended: in "play" mode the confirmed-pair commit path is the one
suppressed (hasMove is always false, so no confirmed full-pair commit ever
applies); moves can still be committed via the greedy single-move path, and
any dispatched game update is marked non-greedy. -/
theorem play_mode_confirmed_suppressed :
    ∀ {B : Type} (eng : ChessEngine B) (endTime : ℚ) (lastMove : String)
      (bs1 bs2 bj : WithBot ℚ) (bm bms : Option MovesData)
      (st : CommitState B),
      (commitStage eng Mode.play endTime lastMove bs1 bs2 bj bm bms
          st).hasMove = false
      ∧ ∀ g, (commitStage eng Mode.play endTime lastMove bs1 bs2 bj bm bms
          st).dispatch = some g → g = false := by
  intro B eng endTime lastMove bs1 bs2 bj bm bms st
  have hc : confirmStep eng Mode.play bs2 bj bms st = (st, false) :=
    confirmStep_false_of_play eng bs2 bj bms st
  constructor
  · show (confirmStep eng Mode.play bs2 bj bms st).2 = false
    rw [hc]
  · intro g hg
    simp only [commitStage, hc] at hg
    by_cases hx : (greedyStep eng endTime lastMove bs1 bm false st).2 = true
    · rw [hx] at hg
      simp at hg
      exact hg
    · rw [Bool.not_eq_true] at hx
      rw [hx] at hg
      simp at hg

/-- Witness for C1's amended theorem at the play-mode fixture. -/
theorem play_mode_confirmed_suppressed_witness :
    (commitStage engL Mode.play 2000 "" ((1 : ℚ) : WithBot ℚ) ⊥ ⊥
        (some mvE4) none ⟨[], [], [("e4", 0)]⟩).hasMove = false :=
  (play_mode_confirmed_suppressed engL 2000 "" ((1 : ℚ) : WithBot ℚ) ⊥ ⊥
    (some mvE4) none ⟨[], [], [("e4", 0)]⟩).1

lemma mem_of_lookupQ :
    ∀ {l : List (String × ℚ)} {k : String} {v : ℚ},
      l.lookup k = some v → (k, v) ∈ l := by
  intro l
  induction l with
  | nil => intro k v h; simp [List.lookup] at h
  | cons p t ih =>
    intro k v h
    obtain ⟨k', v'⟩ := p
    by_cases hk : (k == k') = true
    · simp only [List.lookup, hk] at h
      obtain rfl : v' = v := by injection h
      obtain rfl : k = k' := by exact eq_of_beq hk
      exact List.mem_cons_self _ _
    · rw [Bool.not_eq_true] at hk
      simp only [List.lookup, hk] at h
      exact List.mem_cons_of_mem _ (ih h)

lemma lookup_append_singleton :
    ∀ {l : List (String × ℚ)} {k : String} (v : ℚ),
      l.lookup k = none → (l ++ [(k, v)]).lookup k = some v := by
  intro l
  induction l with
  | nil =>
    intro k v _
    simp [List.lookup]
  | cons p t ih =>
    intro k v h
    obtain ⟨k', v'⟩ := p
    by_cases hk : (k == k') = true
    · simp only [List.lookup, hk] at h
      exact Option.noConfusion h
    · rw [Bool.not_eq_true] at hk
      simp only [List.lookup, hk] at h
      simp only [List.cons_append, List.lookup, hk]
      exact ih v h

lemma greedyStep_fire {B : Type} (eng : ChessEngine B) (endTime : ℚ)
    (lastMove : String) (bs1 : WithBot ℚ) (bm : Option MovesData)
    (hasMove : Bool) (st : CommitState B)
    (h : (greedyStep eng endTime lastMove bs1 bm hasMove st).2 = true) :
    ∃ mv, bm = some mv ∧ hasMove = false ∧ (0 : WithBot ℚ) < bs1
      ∧ eng.sanToLan st.board (mv.sans.headD "") ≠ lastMove
      ∧ ∃ t, st.gmt.lookup (mv.sans.headD "") = some t
          ∧ 1000 < endTime - t := by
  cases bm with
  | none => simp [greedyStep] at h
  | some mv =>
    simp only [greedyStep] at h
    set m := mv.sans.headD "" with hmdef
    by_cases hcond : (!hasMove && decide ((0 : WithBot ℚ) < bs1)) = true
    · rw [if_pos hcond] at h
      have hc2 := hcond
      simp only [Bool.and_eq_true, Bool.not_eq_true', decide_eq_true_eq]
        at hc2
      refine ⟨mv, rfl, hc2.1, hc2.2, ?_⟩
      by_cases hl : (st.gmt.lookup m).isSome = true
      · obtain ⟨t0, ht0⟩ := Option.isSome_iff_exists.mp hl
        rw [if_pos hl, ht0] at h
        by_cases hfire : (decide ((1000 : ℚ) < endTime - (some t0).getD 0)
            && decide (eng.sanToLan st.board m ≠ lastMove)) = true
        · have hf2 := hfire
          simp only [Bool.and_eq_true, decide_eq_true_eq, Option.getD_some]
            at hf2
          exact ⟨hf2.2, t0, ht0, hf2.1⟩
        · rw [Bool.not_eq_true] at hfire
          rw [if_neg (by rw [hfire]; simp)] at h
          simp at h
      · rw [Bool.not_eq_true] at hl
        have hnone : st.gmt.lookup m = none := by
          cases hopt : st.gmt.lookup m with
          | none => rfl
          | some t1 => rw [hopt] at hl; simp at hl
        have hgmtif : (if (st.gmt.lookup m).isSome = true then st.gmt
            else st.gmt ++ [(m, endTime)]) = st.gmt ++ [(m, endTime)] :=
          if_neg (by rw [hl]; simp)
        rw [hgmtif] at h
        rw [lookup_append_singleton endTime hnone] at h
        have hno : decide ((1000 : ℚ)
            < endTime - (some endTime : Option ℚ).getD 0) = false := by
          simp only [Option.getD_some]
          rw [decide_eq_false_iff_not]
          intro hlt
          linarith
        rw [hno] at h
        simp at h
    · rw [Bool.not_eq_true] at hcond
      rw [if_neg (by rw [hcond]; simp)] at h
      simp at h

lemma confirmStep_fst_of_false {B : Type} (eng : ChessEngine B) (mode : Mode)
    (bs2 bj : WithBot ℚ) (bms : Option MovesData) (st : CommitState B)
    (h : (confirmStep eng mode bs2 bj bms st).2 = false) :
    (confirmStep eng mode bs2 bj bms st).1 = st := by
  cases bms with
  | none => rfl
  | some mv =>
    by_cases hm : mode = Mode.play
    · subst hm
      rw [confirmStep_false_of_play]
    · simp only [confirmStep, if_pos hm] at h ⊢
      by_cases hcond : (decide ((0 : WithBot ℚ) < bs2)
          && decide ((0 : WithBot ℚ) < bj)
          && st.possibleMoves.contains (mv.sans.headD "")) = true
      · rw [if_pos hcond] at h
        simp at h
      · rw [if_neg hcond]

lemma confirmStep_gmt_sub {B : Type} (eng : ChessEngine B) (mode : Mode)
    (bs2 bj : WithBot ℚ) (bms : Option MovesData) (st : CommitState B) :
    ∀ p ∈ (confirmStep eng mode bs2 bj bms st).1.gmt, p ∈ st.gmt := by
  intro p hp
  cases bms with
  | none => exact hp
  | some mv =>
    by_cases hm : mode = Mode.play
    · subst hm
      rw [confirmStep_false_of_play] at hp
      exact hp
    · simp only [confirmStep, if_pos hm] at hp
      by_cases hcond : (decide ((0 : WithBot ℚ) < bs2)
          && decide ((0 : WithBot ℚ) < bj)
          && st.possibleMoves.contains (mv.sans.headD "")) = true
      · rw [if_pos hcond] at hp
        simp at hp
      · rw [if_neg hcond] at hp
        exact hp

lemma greedyStep_gmt_sub {B : Type} (eng : ChessEngine B) (endTime : ℚ)
    (lastMove : String) (bs1 : WithBot ℚ) (bm : Option MovesData)
    (hasMove : Bool) (st : CommitState B) :
    ∀ p ∈ (greedyStep eng endTime lastMove bs1 bm hasMove st).1.gmt,
      p ∈ st.gmt ∨ p.1 = "greedyMove"
        ∨ (p.2 = endTime ∧ ∃ mv, bm = some mv ∧ mv.sans.headD "" = p.1) := by
  intro p hp
  cases bm with
  | none => exact Or.inl hp
  | some mv =>
    simp only [greedyStep] at hp
    set m := mv.sans.headD "" with hmdef
    by_cases hcond : (!hasMove && decide ((0 : WithBot ℚ) < bs1)) = true
    · rw [if_pos hcond] at hp
      by_cases hl : (st.gmt.lookup m).isSome = true
      · rw [if_pos hl] at hp
        by_cases hfire : (decide ((1000 : ℚ)
              < endTime - (st.gmt.lookup m).getD 0)
            && decide (eng.sanToLan st.board m ≠ lastMove)) = true
        · rw [if_pos hfire] at hp
          simp only [List.mem_singleton] at hp
          subst hp
          exact Or.inr (Or.inl rfl)
        · rw [Bool.not_eq_true] at hfire
          rw [if_neg (by rw [hfire]; simp)] at hp
          exact Or.inl hp
      · rw [Bool.not_eq_true] at hl
        have hgmtif : (if (st.gmt.lookup m).isSome = true then st.gmt
            else st.gmt ++ [(m, endTime)]) = st.gmt ++ [(m, endTime)] :=
          if_neg (by rw [hl]; simp)
        rw [hgmtif] at hp
        by_cases hfire : (decide ((1000 : ℚ)
              < endTime - ((st.gmt ++ [(m, endTime)]).lookup m).getD 0)
            && decide (eng.sanToLan st.board m ≠ lastMove)) = true
        · rw [if_pos hfire] at hp
          simp only [List.mem_singleton] at hp
          subst hp
          exact Or.inr (Or.inl rfl)
        · rw [Bool.not_eq_true] at hfire
          rw [if_neg (by rw [hfire]; simp)] at hp
          rcases List.mem_append.mp hp with hin | hone
          · exact Or.inl hin
          · simp only [List.mem_singleton] at hone
            subst hone
            exact Or.inr (Or.inr ⟨rfl, mv, rfl, rfl⟩)
    · rw [Bool.not_eq_true] at hcond
      rw [if_neg (by rw [hcond]; simp)] at hp
      exact Or.inl hp

lemma cycleStep_gmt_sub {B : Type} (eng : ChessEngine B)
    (st : CommitState B) (c : CycleInput) :
    ∀ p ∈ (cycleStep eng st c).state.gmt,
      p ∈ st.gmt ∨ p.1 = "greedyMove"
        ∨ (p.2 = c.endTime ∧ observedAs c p.1) := by
  intro p hp
  have hp' : p ∈ (greedyStep eng c.endTime c.lastMove c.bestScore1 c.bestMove
      (confirmStep eng c.mode c.bestScore2 c.bestJointScore c.bestMoves st).2
      (confirmStep eng c.mode c.bestScore2 c.bestJointScore c.bestMoves
        st).1).1.gmt := hp
  rcases greedyStep_gmt_sub eng c.endTime c.lastMove c.bestScore1 c.bestMove
      _ _ p hp' with h | h | h
  · exact Or.inl (confirmStep_gmt_sub eng c.mode c.bestScore2
      c.bestJointScore c.bestMoves st p h)
  · exact Or.inr (Or.inl h)
  · exact Or.inr (Or.inr ⟨h.1, h.2⟩)

lemma runCycles_gmt_sub {B : Type} (eng : ChessEngine B) :
    ∀ (inputs : List CycleInput) (st : CommitState B),
      ∀ p ∈ (runCycles eng st inputs).gmt,
        p ∈ st.gmt ∨ p.1 = "greedyMove"
          ∨ ∃ c ∈ inputs, c.endTime = p.2 ∧ observedAs c p.1 := by
  intro inputs
  induction inputs with
  | nil => intro st p hp; exact Or.inl hp
  | cons c cs ih =>
    intro st p hp
    have hp' : p ∈ (runCycles eng (cycleStep eng st c).state cs).gmt := hp
    rcases ih (cycleStep eng st c).state p hp' with h | h | h
    · rcases cycleStep_gmt_sub eng st c p h with h2 | h2 | h2
      · exact Or.inl h2
      · exact Or.inr (Or.inl h2)
      · exact Or.inr (Or.inr ⟨c, List.mem_cons_self _ _, h2.1.symm, h2.2⟩)
    · exact Or.inr (Or.inl h)
    · obtain ⟨c', hc', hrest⟩ := h
      exact Or.inr (Or.inr ⟨c', List.mem_cons_of_mem _ hc', hrest⟩)

/-- C3 as amended: whenever the greedy commit fires at scan cycle k of a
run that started with an empty greedy timer map, the committed notation's
resolved long-algebraic form differs from the cycle's lastMove, and —
unless the notation is the literal string "greedyMove" — the notation was
observed as best move at some earlier cycle whose timestamp precedes the
firing cycle's endTime by more than 1000ms. Observation since that earlier
cycle need not be continuous: the timer entry persists while other
notations are best. -/
theorem greedy_fire_requires_prior_observation :
    ∀ {B : Type} (eng : ChessEngine B) (st0 : CommitState B)
      (inputs : List CycleInput) (k : Nat) (hk : k < inputs.length),
      st0.gmt = [] →
      (cycleStep eng (runCycles eng st0 (inputs.take k))
          (inputs.get ⟨k, hk⟩)).hasGreedyMove = true →
      ∃ mv, (inputs.get ⟨k, hk⟩).bestMove = some mv
        ∧ eng.sanToLan (runCycles eng st0 (inputs.take k)).board
            (mv.sans.headD "") ≠ (inputs.get ⟨k, hk⟩).lastMove
        ∧ (mv.sans.headD "" = "greedyMove"
            ∨ ∃ c ∈ inputs.take k, observedAs c (mv.sans.headD "")
                ∧ 1000 < (inputs.get ⟨k, hk⟩).endTime - c.endTime) := by
  intro B eng st0 inputs k hk h0 hfire
  set c := inputs.get ⟨k, hk⟩ with hcdef
  set stk := runCycles eng st0 (inputs.take k) with hstk
  have hgfire : (greedyStep eng c.endTime c.lastMove c.bestScore1 c.bestMove
      (confirmStep eng c.mode c.bestScore2 c.bestJointScore c.bestMoves
        stk).2
      (confirmStep eng c.mode c.bestScore2 c.bestJointScore c.bestMoves
        stk).1).2 = true := hfire
  obtain ⟨mv, hmv, hhm, -, hlan0, t, hlook, hgap⟩ :=
    greedyStep_fire eng c.endTime c.lastMove c.bestScore1 c.bestMove _ _
      hgfire
  have hcfmfst : (confirmStep eng c.mode c.bestScore2 c.bestJointScore
      c.bestMoves stk).1 = stk :=
    confirmStep_fst_of_false eng c.mode c.bestScore2 c.bestJointScore
      c.bestMoves stk hhm
  rw [hcfmfst] at hlan0 hlook
  refine ⟨mv, hmv, hlan0, ?_⟩
  have hmem : (mv.sans.headD "", t) ∈ stk.gmt := mem_of_lookupQ hlook
  rcases runCycles_gmt_sub eng (inputs.take k) st0 _ hmem with h | h | h
  · rw [h0] at h
    exact absurd h (List.not_mem_nil _)
  · exact Or.inl h
  · obtain ⟨c', hc', hct, hobs⟩ := h
    refine Or.inr ⟨c', hc', hobs, ?_⟩
    rw [hct]
    exact hgap

/-- Knight-move candidate fixture with notation "Nf3". -/
def mvNf3 : MovesData := ⟨["Nf3"], [6], [21], [2]⟩

/-- Scan cycle in record mode observing the given candidate as best move
with positive score at the given time. -/
def cObs (mv : MovesData) (t : ℚ) : CycleInput :=
  ⟨((1 : ℚ) : WithBot ℚ), ⊥, ⊥, some mv, none, Mode.record, t, ""⟩

/-- Three-cycle trace for the C3 counterexample: "e4" is best at time 0,
"Nf3" at time 600 (interrupting the observation of "e4"), and "e4" again
at time 1100. -/
def obsTrace : List CycleInput :=
  [cObs mvE4 0, cObs mvNf3 600, cObs mvE4 1100]

/-- Modelled from the spec: the notation m has been under continuous
observation for at least dur milliseconds up to scan cycle k — some window
start t0, at least dur before cycle k's endTime, exists such that every
cycle from t0 on (up to k) observed m as the best move. -/
def continuouslyObserved (inputs : List CycleInput) (k : Nat)
    (hk : k < inputs.length) (m : String) (dur : ℚ) : Prop :=
  ∃ t0 : ℚ, t0 + dur ≤ (inputs.get ⟨k, hk⟩).endTime
    ∧ ∀ j (hj : j < inputs.length), j ≤ k →
        t0 ≤ (inputs.get ⟨j, hj⟩).endTime → observedAs (inputs.get ⟨j, hj⟩) m

lemma obsTrace_fires :
    (cycleStep engL (runCycles engL st0L (obsTrace.take 2))
        (obsTrace.get ⟨2, by decide⟩)).hasGreedyMove = true := by
  have hne : ¬(("e4" : String) = "") := by decide
  have h1 : (cycleStep engL st0L (cObs mvE4 0)).state
      = ⟨[], [], [("e4", 0)]⟩ := by
    norm_num [cycleStep, commitStage, confirmStep, greedyStep, engL, st0L,
      cObs, mvE4, List.lookup]
  have hb : (("Nf3" : String) == "e4") = false := by decide
  have h2 : (cycleStep engL ⟨[], [], [("e4", 0)]⟩ (cObs mvNf3 600)).state
      = ⟨[], [], [("e4", 0), ("Nf3", 600)]⟩ := by
    norm_num [cycleStep, commitStage, confirmStep, greedyStep, engL,
      cObs, mvNf3, List.lookup, hb]
  have hrun : runCycles engL st0L (obsTrace.take 2)
      = ⟨[], [], [("e4", 0), ("Nf3", 600)]⟩ := by
    show (runCycles engL
        (cycleStep engL st0L (cObs mvE4 0)).state [cObs mvNf3 600]) = _
    rw [h1]
    show (cycleStep engL ⟨[], [], [("e4", 0)]⟩ (cObs mvNf3 600)).state = _
    rw [h2]
  rw [hrun]
  show (cycleStep engL ⟨[], [], [("e4", 0), ("Nf3", 600)]⟩
      (cObs mvE4 1100)).hasGreedyMove = true
  norm_num [cycleStep, commitStage, confirmStep, greedyStep, engL,
    cObs, mvE4, List.lookup, if_neg hne]

/-- Counterexample to C3: at cycle 2 of the trace the greedy commit fires
for "e4" even though "e4" was not under 1000ms of continuous observation —
at time 600, inside every candidate 1000ms window before the firing time
1100, the best move was "Nf3", not "e4". The timer recorded at time 0
survives the interruption, so the commit fires after only 500ms of renewed
observation. -/
theorem greedy_fires_without_continuous_observation :
    (cycleStep engL (runCycles engL st0L (obsTrace.take 2))
        (obsTrace.get ⟨2, by decide⟩)).hasGreedyMove = true
    ∧ ¬ continuouslyObserved obsTrace 2 (by decide) "e4" 1000 := by
  refine ⟨obsTrace_fires, ?_⟩
  rintro ⟨t0, hdur, hall⟩
  have hend : (obsTrace.get ⟨2, by decide⟩).endTime = 1100 := rfl
  rw [hend] at hdur
  have ht06 : t0 ≤ (obsTrace.get ⟨1, by decide⟩).endTime := by
    have : (obsTrace.get ⟨1, by decide⟩).endTime = 600 := rfl
    rw [this]
    linarith
  have hobs := hall 1 (by decide) (by decide) ht06
  obtain ⟨mv, hmv, hsan⟩ := hobs
  have hmv' : mvNf3 = mv := by
    have : (obsTrace.get ⟨1, by decide⟩).bestMove = some mvNf3 := rfl
    rw [this] at hmv
    injection hmv
  rw [← hmv'] at hsan
  exact absurd hsan (by decide)

/-- Witness for C3's amended theorem at the counterexample trace: the fire
at cycle 2 indeed traces back to the earlier observation of "e4". -/
theorem greedy_fire_requires_prior_observation_witness :
    ∃ mv, (obsTrace.get ⟨2, by decide⟩).bestMove = some mv
      ∧ engL.sanToLan (runCycles engL st0L (obsTrace.take 2)).board
          (mv.sans.headD "") ≠ (obsTrace.get ⟨2, by decide⟩).lastMove
      ∧ (mv.sans.headD "" = "greedyMove"
          ∨ ∃ c ∈ obsTrace.take 2, observedAs c (mv.sans.headD "")
              ∧ 1000 < (obsTrace.get ⟨2, by decide⟩).endTime - c.endTime) :=
  greedy_fire_requires_prior_observation engL st0L obsTrace 2 (by decide)
    rfl obsTrace_fires

/-- Robot pose record (robotMoveExecutor `RobotMoveCommand.pose`). -/
structure RobotPose where
  x : ℚ
  y : ℚ
  z : ℚ
  rx : ℚ
  ry : ℚ
  rz : ℚ
deriving DecidableEq, Repr

/-- Command discriminator: 'move' or 'gripper'. -/
inductive CmdType where
  | move
  | gripper
deriving DecidableEq, Repr

/-- Move type: 'clearance' or 'vertical'. -/
inductive MoveType where
  | clearance
  | vertical
deriving DecidableEq, Repr

/-- Gripper action; gripOpen and gripClose stand for the source strings
'open' and 'close' (gripStop, gripMoveToWidth for 'stop',
'move_to_width'). -/
inductive GripperAction where
  | gripOpen
  | gripClose
  | gripStop
  | gripMoveToWidth
deriving DecidableEq, Repr

/-- RobotMoveCommand (robotMoveExecutor lines 224-239): one primitive
instruction with its optional pose, move type, gripper action and gripper
parameters. -/
structure RobotMoveCommand where
  type : CmdType
  pose : Option RobotPose
  moveType : Option MoveType
  action : Option GripperAction
  width_mm : Option ℚ
  force_n : Option ℚ
  speed_percent : Option ℚ
deriving DecidableEq, Repr

/-- CONFIG.PICKUP_Z (robotMoveExecutor line 243). -/
def CONFIG_PICKUP_Z : ℚ := 0.194

/-- CONFIG.CLEARANCE_Z (robotMoveExecutor line 244). -/
def CONFIG_CLEARANCE_Z : ℚ := 0.240

/-- CONFIG.FRAMES_TO_AVERAGE (robotMoveExecutor line 245). -/
def CONFIG_FRAMES_TO_AVERAGE : Nat := 5

/-- CONFIG.GRIPPER_OPEN_WIDTH_MM (robotMoveExecutor line 246). -/
def CONFIG_GRIPPER_OPEN_WIDTH_MM : ℚ := 20.0

/-- CONFIG.GRIPPER_CLOSE_WIDTH_MM (robotMoveExecutor line 247). -/
def CONFIG_GRIPPER_CLOSE_WIDTH_MM : ℚ := 0.3

/-- CONFIG.GRIPPER_FORCE_N (robotMoveExecutor line 248). -/
def CONFIG_GRIPPER_FORCE_N : ℚ := 20

/-- CONFIG.GRIPPER_SPEED_PERCENT (robotMoveExecutor line 249). -/
def CONFIG_GRIPPER_SPEED_PERCENT : ℚ := 50

/-- Orientation extracted from the calibration JSON's first corner
(robotMoveExecutor lines 409-414). -/
structure RobotOrientation where
  rx : ℚ
  ry : ℚ
  rz : ℚ
deriving DecidableEq, Repr

/-- createPose (robotMoveExecutor lines 445-452): builds a pose object from
a coordinate array and the shared orientation. -/
def createPose (coords : List ℚ) (orient : RobotOrientation) : RobotPose :=
  ⟨coords.getD 0 0, coords.getD 1 0, coords.getD 2 0,
    orient.rx, orient.ry, orient.rz⟩

/-- A 'move' command literal of the source. -/
def mkMoveCmd (p : RobotPose) (mt : MoveType) : RobotMoveCommand :=
  ⟨CmdType.move, some p, some mt, none, none, none, none⟩

/-- A 'gripper' command literal of the source, with the configured force
and speed and the given action and width. -/
def mkGripperCmd (a : GripperAction) (w : ℚ) : RobotMoveCommand :=
  ⟨CmdType.gripper, none, none, some a, some w,
    some CONFIG_GRIPPER_FORCE_N, some CONFIG_GRIPPER_SPEED_PERCENT⟩

/-- executeRobotMove (robotMoveExecutor lines 389-631) as the ordered
sequence of (command, settle delay) pairs it awaits one after another. The
checks that throw before any command is issued (missing square-pose
functions or calibration) are outside this sequence: the function receives
the already-resolved square pose arrays, orientation, home and drop poses.
Each z height is set by writing index 2 of a copy of the pose array. -/
def executeRobotMove (sourceSquarePoseRobot destSquarePoseRobot : List ℚ)
    (orient : RobotOrientation) (homePose dropPose : RobotPose)
    (isCapture : Bool) : List (RobotMoveCommand × ℚ) :=
  let sourceSquareClearance := sourceSquarePoseRobot.set 2 CONFIG_CLEARANCE_Z
  let destSquareClearance := destSquarePoseRobot.set 2 CONFIG_CLEARANCE_Z
  let sourceSquarePickup := sourceSquarePoseRobot.set 2 CONFIG_PICKUP_Z
  let destSquarePickup := destSquarePoseRobot.set 2 CONFIG_PICKUP_Z
  if !isCapture then
    [(mkMoveCmd (createPose sourceSquareClearance orient)
        MoveType.clearance, 3500),
     (mkMoveCmd (createPose sourceSquarePickup orient)
        MoveType.vertical, 1000),
     (mkGripperCmd GripperAction.gripClose CONFIG_GRIPPER_CLOSE_WIDTH_MM,
        500),
     (mkMoveCmd (createPose sourceSquareClearance orient)
        MoveType.vertical, 1000),
     (mkMoveCmd (createPose destSquareClearance orient)
        MoveType.clearance, 3500),
     (mkMoveCmd (createPose destSquarePickup orient)
        MoveType.vertical, 1000),
     (mkGripperCmd GripperAction.gripOpen CONFIG_GRIPPER_OPEN_WIDTH_MM,
        500),
     (mkMoveCmd (createPose destSquareClearance orient)
        MoveType.vertical, 1000),
     (mkMoveCmd homePose MoveType.clearance, 4000)]
  else
    [(mkMoveCmd (createPose destSquareClearance orient)
        MoveType.clearance, 3500),
     (mkMoveCmd (createPose destSquarePickup orient)
        MoveType.vertical, 1000),
     (mkGripperCmd GripperAction.gripClose CONFIG_GRIPPER_CLOSE_WIDTH_MM,
        500),
     (mkMoveCmd (createPose destSquareClearance orient)
        MoveType.vertical, 1000),
     (mkMoveCmd { dropPose with z := CONFIG_CLEARANCE_Z }
        MoveType.clearance, 3500),
     (mkMoveCmd dropPose MoveType.vertical, 1000),
     (mkGripperCmd GripperAction.gripOpen CONFIG_GRIPPER_OPEN_WIDTH_MM,
        500),
     (mkMoveCmd { dropPose with z := CONFIG_CLEARANCE_Z }
        MoveType.vertical, 1000),
     (mkMoveCmd (createPose sourceSquareClearance orient)
        MoveType.clearance, 3500),
     (mkMoveCmd (createPose sourceSquarePickup orient)
        MoveType.vertical, 1000),
     (mkGripperCmd GripperAction.gripClose CONFIG_GRIPPER_CLOSE_WIDTH_MM,
        500),
     (mkMoveCmd (createPose sourceSquareClearance orient)
        MoveType.vertical, 1000),
     (mkMoveCmd (createPose destSquareClearance orient)
        MoveType.clearance, 3500),
     (mkMoveCmd (createPose destSquarePickup orient)
        MoveType.vertical, 1000),
     (mkGripperCmd GripperAction.gripOpen CONFIG_GRIPPER_OPEN_WIDTH_MM,
        500),
     (mkMoveCmd (createPose destSquareClearance orient)
        MoveType.vertical, 1000),
     (mkMoveCmd homePose MoveType.clearance, 4000)]

/-- C6: a capture move issues exactly 17 primitive commands and a
non-capture move exactly 9, in the fixed order given by the emitted list
(the sequencer awaits each command and its settle delay before the next;
see runSequence). The first 8 capture steps remove the captured piece from
the destination square to the drop zone, and the remaining 9 equal the
non-capture relocation sequence including the final return home. -/
theorem executeRobotMove_step_counts :
    ∀ (src dst : List ℚ) (orient : RobotOrientation)
      (homePose dropPose : RobotPose),
      (executeRobotMove src dst orient homePose dropPose true).length = 17
      ∧ (executeRobotMove src dst orient homePose dropPose false).length = 9
      ∧ (executeRobotMove src dst orient homePose dropPose true).drop 8
          = executeRobotMove src dst orient homePose dropPose false
      ∧ (executeRobotMove src dst orient homePose dropPose true).take 8
          = [(mkMoveCmd (createPose (dst.set 2 CONFIG_CLEARANCE_Z) orient)
                MoveType.clearance, 3500),
             (mkMoveCmd (createPose (dst.set 2 CONFIG_PICKUP_Z) orient)
                MoveType.vertical, 1000),
             (mkGripperCmd GripperAction.gripClose
                CONFIG_GRIPPER_CLOSE_WIDTH_MM, 500),
             (mkMoveCmd (createPose (dst.set 2 CONFIG_CLEARANCE_Z) orient)
                MoveType.vertical, 1000),
             (mkMoveCmd { dropPose with z := CONFIG_CLEARANCE_Z }
                MoveType.clearance, 3500),
             (mkMoveCmd dropPose MoveType.vertical, 1000),
             (mkGripperCmd GripperAction.gripOpen
                CONFIG_GRIPPER_OPEN_WIDTH_MM, 500),
             (mkMoveCmd { dropPose with z := CONFIG_CLEARANCE_Z }
                MoveType.vertical, 1000)] := by
  intro src dst orient homePose dropPose
  refine ⟨rfl, rfl, rfl, rfl⟩

/-- PieceBaseBuffer (robotMoveExecutor lines 207-211): per-move-key
accumulator of raw coordinate pairs and a frame counter. -/
structure PieceBaseBuffer where
  sourcePieceBase : List (ℚ × ℚ)
  capturedPieceBase : List (ℚ × ℚ)
  frameCount : Nat
deriving DecidableEq, Repr

/-- averageCoordinates (robotMoveExecutor lines 286-291): arithmetic mean
of a coordinate list, [0,0] for an empty list. -/
def averageCoordinates (coords : List (ℚ × ℚ)) : ℚ × ℚ :=
  if coords.length = 0 then (0, 0)
  else
    let sum := coords.foldl
      (fun acc coord => (acc.1 + coord.1, acc.2 + coord.2)) (0, 0)
    (sum.1 / coords.length, sum.2 / coords.length)

/-- JavaScript Map.set: replace the entry under the key, or append it. -/
def mapSet (m : List (String × PieceBaseBuffer)) (k : String)
    (v : PieceBaseBuffer) : List (String × PieceBaseBuffer) :=
  if (m.lookup k).isSome then
    m.map (fun p => if p.1 == k then (k, v) else p)
  else m ++ [(k, v)]

/-- JavaScript Map.delete: drop the entry under the key. -/
def mapDelete (m : List (String × PieceBaseBuffer)) (k : String) :
    List (String × PieceBaseBuffer) :=
  m.filter (fun p => !(p.1 == k))

/-- Result of one addToPieceBaseBuffer call: the optional averages and the
readiness flag. -/
structure AddResult where
  sourceAvg : Option (ℚ × ℚ)
  capturedAvg : Option (ℚ × ℚ)
  ready : Bool
deriving DecidableEq, Repr

/-- addToPieceBaseBuffer (robotMoveExecutor lines 294-333): creates the
buffer on first use of a key, pushes the source (and optional captured)
coordinate, increments the frame counter; once frameCount reaches
CONFIG.FRAMES_TO_AVERAGE = 5 it returns the averages with ready = true and
deletes the buffer, otherwise stores the grown buffer and returns
not-ready. The JS code mutates the buffer object held by the Map; the
embedding threads the map state explicitly. -/
def addToPieceBaseBuffer (buffers : List (String × PieceBaseBuffer))
    (moveKey : String) (sourcePieceBase : ℚ × ℚ)
    (capturedPieceBase : Option (ℚ × ℚ)) :
    List (String × PieceBaseBuffer) × AddResult :=
  let buffers1 :=
    if (buffers.lookup moveKey).isSome then buffers
    else buffers ++ [(moveKey, ⟨[], [], 0⟩)]
  let buffer := (buffers1.lookup moveKey).getD ⟨[], [], 0⟩
  let buffer1 := { buffer with
    sourcePieceBase := buffer.sourcePieceBase ++ [sourcePieceBase] }
  let buffer2 :=
    match capturedPieceBase with
    | some cp => { buffer1 with
        capturedPieceBase := buffer1.capturedPieceBase ++ [cp] }
    | none => buffer1
  let buffer3 := { buffer2 with frameCount := buffer2.frameCount + 1 }
  if CONFIG_FRAMES_TO_AVERAGE ≤ buffer3.frameCount then
    let sourceAvg := averageCoordinates buffer3.sourcePieceBase
    let capturedAvg :=
      if 0 < buffer3.capturedPieceBase.length then
        some (averageCoordinates buffer3.capturedPieceBase)
      else none
    (mapDelete buffers1 moveKey, ⟨some sourceAvg, capturedAvg, true⟩)
  else
    (mapSet buffers1 moveKey buffer3, ⟨none, none, false⟩)

/-- Feeds one source coordinate per frame to addToPieceBaseBuffer under a
fixed move key, returning the final map state and the last call's result. -/
def feedCoords (moveKey : String) :
    List (ℚ × ℚ) → List (String × PieceBaseBuffer) →
    List (String × PieceBaseBuffer) × AddResult
  | [], bufs => (bufs, ⟨none, none, false⟩)
  | [c], bufs => addToPieceBaseBuffer bufs moveKey c none
  | c :: cs, bufs =>
    feedCoords moveKey cs (addToPieceBaseBuffer bufs moveKey c none).1

lemma add_first (key : String) (c : ℚ × ℚ) :
    addToPieceBaseBuffer [] key c none
      = ([(key, ⟨[c], [], 1⟩)], ⟨none, none, false⟩) := by
  simp [addToPieceBaseBuffer, mapSet, List.lookup, CONFIG_FRAMES_TO_AVERAGE]

lemma add_step (key : String) (b : PieceBaseBuffer) (c : ℚ × ℚ)
    (h : b.frameCount + 1 < 5) :
    addToPieceBaseBuffer [(key, b)] key c none
      = ([(key, ⟨b.sourcePieceBase ++ [c], b.capturedPieceBase,
            b.frameCount + 1⟩)], ⟨none, none, false⟩) := by
  have hnot : ¬(CONFIG_FRAMES_TO_AVERAGE ≤ b.frameCount + 1) := by
    simp [CONFIG_FRAMES_TO_AVERAGE]
    omega
  simp [addToPieceBaseBuffer, mapSet, List.lookup, hnot]

lemma add_fifth (key : String) (b : PieceBaseBuffer) (c : ℚ × ℚ)
    (h : 5 ≤ b.frameCount + 1) :
    addToPieceBaseBuffer [(key, b)] key c none
      = ([], ⟨some (averageCoordinates (b.sourcePieceBase ++ [c])),
          if 0 < b.capturedPieceBase.length then
            some (averageCoordinates b.capturedPieceBase)
          else none, true⟩) := by
  have hle : CONFIG_FRAMES_TO_AVERAGE ≤ b.frameCount + 1 := by
    simpa [CONFIG_FRAMES_TO_AVERAGE] using h
  simp [addToPieceBaseBuffer, mapDelete, List.lookup, hle]

/-- C7: feeding the coordinates [[0,0],[2,0],[4,0],[6,0],[8,0]] over 5
frames yields the average [4,0] with ready = true exactly at the 5th frame
(and the buffer is cleared); any run of fewer than 5 frames ends not-ready,
so no coordinate is ever emitted before 5 frames; any 5 frames end ready. -/
theorem pieceBaseBuffer_averaging :
    ((feedCoords "e2e4" [(0, 0), (2, 0), (4, 0), (6, 0), (8, 0)] []).2
        = ⟨some (4, 0), none, true⟩
      ∧ (feedCoords "e2e4" [(0, 0), (2, 0), (4, 0), (6, 0), (8, 0)] []).1
        = [])
    ∧ (∀ (key : String) (cs : List (ℚ × ℚ)), cs.length < 5 →
        (feedCoords key cs []).2.ready = false)
    ∧ (∀ (key : String) (a b c d e : ℚ × ℚ),
        (feedCoords key [a, b, c, d, e] []).2.ready = true) := by
  have hrun : ∀ (key : String) (a b c d e : ℚ × ℚ),
      feedCoords key [a, b, c, d, e] []
        = ([], ⟨some (averageCoordinates [a, b, c, d, e]), none, true⟩) := by
    intro key a b c d e
    simp only [feedCoords]
    rw [add_first key a]
    rw [add_step key ⟨[a], [], 1⟩ b (by norm_num)]
    rw [add_step key ⟨[a] ++ [b], [], 2⟩ c (by norm_num)]
    rw [add_step key ⟨([a] ++ [b]) ++ [c], [], 3⟩ d (by norm_num)]
    rw [add_fifth key ⟨(([a] ++ [b]) ++ [c]) ++ [d], [], 4⟩ e (by norm_num)]
    simp
  refine ⟨?_, ?_, ?_⟩
  · rw [hrun]
    have havg : averageCoordinates [(0, 0), (2, 0), (4, 0), (6, 0), (8, 0)]
        = ((4 : ℚ), (0 : ℚ)) := by
      norm_num [averageCoordinates]
    rw [havg]
    exact ⟨rfl, rfl⟩
  · intro key cs hlen
    match cs with
    | [] => rfl
    | [a] =>
      show (addToPieceBaseBuffer [] key a none).2.ready = false
      rw [add_first key a]
    | [a, b] =>
      simp only [feedCoords]
      rw [add_first key a, add_step key ⟨[a], [], 1⟩ b (by norm_num)]
    | [a, b, c] =>
      simp only [feedCoords]
      rw [add_first key a, add_step key ⟨[a], [], 1⟩ b (by norm_num),
        add_step key ⟨[a] ++ [b], [], 2⟩ c (by norm_num)]
    | [a, b, c, d] =>
      simp only [feedCoords]
      rw [add_first key a, add_step key ⟨[a], [], 1⟩ b (by norm_num),
        add_step key ⟨[a] ++ [b], [], 2⟩ c (by norm_num),
        add_step key ⟨([a] ++ [b]) ++ [c], [], 3⟩ d (by norm_num)]
    | a :: b :: c :: d :: e :: t =>
      exact absurd hlen (by simp)
  · intro key a b c d e
    rw [hrun]

/-- Witness for C7 at concrete short runs. -/
theorem pieceBaseBuffer_averaging_witness :
    (feedCoords "g1f3" [(1, 2), (3, 4), (5, 6), (7, 8)] []).2.ready = false
    ∧ (feedCoords "g1f3" [(1, 2), (3, 4), (5, 6), (7, 8), (9, 10)]
        []).2.ready = true :=
  ⟨pieceBaseBuffer_averaging.2.1 "g1f3" [(1, 2), (3, 4), (5, 6), (7, 8)]
      (by norm_num),
    pieceBaseBuffer_averaging.2.2 "g1f3" (1, 2) (3, 4) (5, 6) (7, 8)
      (9, 10)⟩

/-- What happens first to the WebSocket opened by sendCommand: the open
event, the error event, or neither within the 1000ms fallback window. -/
inductive BridgeOutcome where
  | opened
  | errored
  | timedOut
deriving DecidableEq, Repr

/-- sendCommand (robotMoveExecutor lines 341-374): resolves 500ms after a
successful open; rejects on a WebSocket error; and when the 1000ms
fallback timer fires first it closes the socket and resolves anyway
("Resolve anyway to continue execution") — a timeout does not reject. -/
def sendCommand : BridgeOutcome → Except Unit Unit
  | BridgeOutcome.opened => Except.ok ()
  | BridgeOutcome.errored => Except.error ()
  | BridgeOutcome.timedOut => Except.ok ()

/-- executeCommand (robotMoveExecutor lines 377-386): awaits sendCommand,
then the settle delay; a rejection is logged and rethrown, aborting the
caller. The command and delay do not influence success. -/
def executeCommand (_command : RobotMoveCommand) (_delay : ℚ)
    (outcome : BridgeOutcome) : Except Unit Unit :=
  match sendCommand outcome with
  | Except.ok _ => Except.ok ()
  | Except.error e => Except.error e

/-- Result of running a command sequence: how many commands completed and
whether the sequence failed (aborting the rest). -/
structure RunResult where
  executed : Nat
  failed : Bool
deriving DecidableEq, Repr

/-- Sequential await loop of executeRobotMove over its command list: each
step runs executeCommand under the environment's outcome for that step
index; a thrown error aborts the remaining steps. -/
def runSequenceAux (env : Nat → BridgeOutcome) :
    List (RobotMoveCommand × ℚ) → Nat → RunResult
  | [], n => ⟨n, false⟩
  | step :: rest, n =>
    match executeCommand step.1 step.2 (env n) with
    | Except.ok _ => runSequenceAux env rest (n + 1)
    | Except.error _ => ⟨n, true⟩

/-- Runs a full command sequence from the first step. -/
def runSequence (env : Nat → BridgeOutcome)
    (steps : List (RobotMoveCommand × ℚ)) : RunResult :=
  runSequenceAux env steps 0

/-- Counterexample to C9: with every bridge command timing out, the
9-step non-capture sequence still executes all 9 steps and reports no
failure — a timeout does not abort the remaining sequence and surfaces no
failure to the caller. -/
theorem sequence_continues_after_timeout :
    runSequence (fun _ => BridgeOutcome.timedOut)
      (executeRobotMove [1, 2, 3] [4, 5, 6] ⟨0, 0, 0⟩
        ⟨0, 0, 0, 0, 0, 0⟩ ⟨0, 0, 0, 0, 0, 0⟩ false)
      = ⟨9, false⟩ := rfl

lemma runSequenceAux_all_ok (env : Nat → BridgeOutcome) :
    ∀ (steps : List (RobotMoveCommand × ℚ)) (n : Nat),
      (∀ i, i < steps.length → env (n + i) ≠ BridgeOutcome.errored) →
      runSequenceAux env steps n = ⟨n + steps.length, false⟩ := by
  intro steps
  induction steps with
  | nil => intro n _; simp [runSequenceAux]
  | cons step rest ih =>
    intro n h
    have h0 : env n ≠ BridgeOutcome.errored := by
      have := h 0 (by simp)
      simpa using this
    have hok : executeCommand step.1 step.2 (env n) = Except.ok () := by
      cases henv : env n with
      | opened => rfl
      | errored => exact absurd henv h0
      | timedOut => rfl
    simp only [runSequenceAux, hok]
    rw [ih (n + 1) (fun i hi => by
      have := h (i + 1) (by simpa using Nat.succ_lt_succ hi)
      simpa [Nat.add_assoc, Nat.add_comm 1 i] using this)]
    congr 1
    simp [List.length_cons]
    omega

lemma runSequenceAux_abort (env : Nat → BridgeOutcome) :
    ∀ (steps : List (RobotMoveCommand × ℚ)) (n k : Nat),
      k < steps.length → env (n + k) = BridgeOutcome.errored →
      (∀ j, j < k → env (n + j) ≠ BridgeOutcome.errored) →
      runSequenceAux env steps n = ⟨n + k, true⟩ := by
  intro steps
  induction steps with
  | nil => intro n k hk _ _; simp at hk
  | cons step rest ih =>
    intro n k hk herr hbefore
    cases k with
    | zero =>
      have h0 : env n = BridgeOutcome.errored := by simpa using herr
      simp only [runSequenceAux, executeCommand, sendCommand, h0]
      simp
    | succ k' =>
      have h0 : env n ≠ BridgeOutcome.errored := by
        have := hbefore 0 (Nat.succ_pos k')
        simpa using this
      have hok : executeCommand step.1 step.2 (env n) = Except.ok () := by
        cases henv : env n with
        | opened => rfl
        | errored => exact absurd henv h0
        | timedOut => rfl
      simp only [runSequenceAux, hok]
      rw [ih (n + 1) k' (by simpa using Nat.lt_of_succ_lt_succ hk)
        (by
          have : n + 1 + k' = n + (k' + 1) := by omega
          rw [this]
          exact herr)
        (fun j hj => by
          have := hbefore (j + 1) (Nat.succ_lt_succ hj)
          have heq : n + 1 + j = n + (j + 1) := by omega
          rw [heq]
          exact this)]
      congr 1
      omega

/-- C9 as amended: every bridge command settles within its 1000ms fallback
timeout (sendCommand is total over the three outcomes), but a timeout
resolves rather than rejecting, so the sequencer proceeds: a sequence with
no transport error runs every step and reports no failure; the sequence
aborts — skipping the remaining steps and surfacing the failure — exactly
at the first step whose transport errors. -/
theorem sequence_aborts_only_on_error :
    ∀ (env : Nat → BridgeOutcome) (steps : List (RobotMoveCommand × ℚ)),
      sendCommand BridgeOutcome.timedOut = Except.ok ()
      ∧ ((∀ i, i < steps.length → env i ≠ BridgeOutcome.errored) →
          runSequence env steps = ⟨steps.length, false⟩)
      ∧ (∀ k, k < steps.length → env k = BridgeOutcome.errored →
          (∀ j, j < k → env j ≠ BridgeOutcome.errored) →
          runSequence env steps = ⟨k, true⟩) := by
  intro env steps
  refine ⟨rfl, ?_, ?_⟩
  · intro h
    have := runSequenceAux_all_ok env steps 0 (fun i hi => by
      simpa using h i hi)
    simpa [runSequence] using this
  · intro k hk herr hbefore
    have := runSequenceAux_abort env steps 0 k hk (by simpa using herr)
      (fun j hj => by simpa using hbefore j hj)
    simpa [runSequence] using this

/-- Witness for C9's amended theorem: a two-outcome environment where step
0 times out and step 1 errors aborts the 9-step sequence at step 1. -/
theorem sequence_aborts_only_on_error_witness :
    runSequence
      (fun i => if i = 1 then BridgeOutcome.errored
        else BridgeOutcome.timedOut)
      (executeRobotMove [1, 2, 3] [4, 5, 6] ⟨0, 0, 0⟩
        ⟨0, 0, 0, 0, 0, 0⟩ ⟨0, 0, 0, 0, 0, 0⟩ false)
      = ⟨1, true⟩ :=
  (sequence_aborts_only_on_error
      (fun i => if i = 1 then BridgeOutcome.errored
        else BridgeOutcome.timedOut)
      (executeRobotMove [1, 2, 3] [4, 5, 6] ⟨0, 0, 0⟩
        ⟨0, 0, 0, 0, 0, 0⟩ ⟨0, 0, 0, 0, 0, 0⟩ false)).2.2 1
    (by decide) (by norm_num)
    (fun j hj => by
      interval_cases j
      · simp)
